import Mathlib

/-!
A verification development for the wanderer repository's spatial-memory and
procedural-content core: the bounded trail of visited cells with revisit
semantics, the weighted room pool, the tiered item generator, room loot
generation, the inventory capacity model, and the camera smoothing update.
Randomness is made explicit: every random draw of the source appears here as
a parameter (a drawn index, a drawn integer, or a random-source function).
-/

namespace Wanderer

/-- Grid position (x, y). -/
abbrev Pos := Int × Int

/-- A parsed content record: ordered key-value pairs, as produced by the
tabular loader (csv.DictReader yields no duplicate keys). -/
abbrev Row := List (String × String)

/-- Dictionary lookup on a record: the first binding of the key, if any. -/
def rowGet (r : Row) (k : String) : Option String :=
  (r.find? (fun p => p.1 == k)).map (fun p => p.2)

/-- Characters of a string with leading and trailing whitespace removed,
as Python str.strip does. -/
def pyStripChars (cs : List Char) : List Char :=
  ((cs.dropWhile Char.isWhitespace).reverse.dropWhile Char.isWhitespace).reverse

/-- Python str.strip(). -/
def pyStrip (s : String) : String := String.mk (pyStripChars s.data)

/-- The value of a decimal digit character, none otherwise. -/
def charDigit? (c : Char) : Option Nat :=
  if c.isDigit then some (c.toNat - 48) else none

/-- A non-empty all-digit character run read as a natural number. -/
def decNat? (cs : List Char) : Option Nat :=
  match cs with
  | [] => none
  | _ =>
    cs.foldl
      (fun acc c =>
        match acc, charDigit? c with
        | some a, some d => some (a * 10 + d)
        | _, _ => none)
      (some 0)

/-- An optionally signed digit run read as an integer. -/
def intChars? : List Char → Option Int
  | '-' :: rest => (decNat? rest).map (fun n => -(n : Int))
  | '+' :: rest => (decNat? rest).map (fun n => (n : Int))
  | cs => (decNat? cs).map (fun n => (n : Int))

/-- Python int(s) on a string: optional sign and decimal digits after
stripping whitespace; anything else raises ValueError, modeled as none. -/
def pyInt? (s : String) : Option Int :=
  intChars? (pyStripChars s.data)

/-- int(room.get('probability', 0)): a missing key yields the integer 0
directly; a present string value is parsed, ValueError modeled as none. -/
def probValue (r : Row) : Option Int :=
  match rowGet r "probability" with
  | none => some 0
  | some s => pyInt? s

/-- The number of copies of a record in its weighted pool: its parsed
probability when that is a positive integer, else zero. -/
def weightNat (r : Row) : Nat :=
  match probValue r with
  | some p => if 0 < p then p.toNat else 0
  | none => 0

/-- The loop of create_weighted_room_list: for each record append it
probability times, skipping records whose probability fails to parse,
and records with non-positive probability. -/
def weightedRooms : List Row → List Row
  | [] => []
  | r :: rest =>
    match probValue r with
    | none => weightedRooms rest
    | some p => (if 0 < p then List.replicate p.toNat r else []) ++ weightedRooms rest

/-- wanderer.py create_weighted_room_list: the weighted pool, with a
fallback to the one-element list holding the first raw record when the pool
is empty; indexing rooms_data[0] on an empty list raises, modeled as none. -/
def create_weighted_room_list (rooms_data : List Row) : Option (List Row) :=
  let weighted := weightedRooms rooms_data
  if weighted.isEmpty then rooms_data.head?.map (fun r => [r]) else some weighted

/-- wanderer-v0-2.py GameData.create_weighted_lists, rooms part: extend the
pool by [room] * prob for each record (zero copies when prob is not
positive), skipping records whose probability fails to parse; there is no
fallback of any kind, so the pool can stay empty on non-empty data. -/
def create_weighted_lists_v2 : List Row → List Row
  | [] => []
  | r :: rest =>
    match probValue r with
    | none => create_weighted_lists_v2 rest
    | some p => List.replicate p.toNat r ++ create_weighted_lists_v2 rest

/-- MEMORY_LIMIT = 12. -/
def MEMORY_LIMIT : Nat := 12

/-- BUFFER_TILES = 1. -/
def BUFFER_TILES : Int := 1

/-- BACKPACK_CAPACITY = 20. -/
def BACKPACK_CAPACITY : Nat := 20

/-- One visited cell of the trail: its grid position, its own copy of the
drawn room record, the loot item names still available, and the looted flag. -/
structure Entry where
  pos : Pos
  room : Row
  loot : List String
  looted : Bool
deriving DecidableEq

/-- wanderer.py move_player: extract the first trail entry at the target
position if present, otherwise build a fresh entry from the generated room
and loot (the procedural generation results stand in for the random draws);
push the entry on the front and pop the oldest entry when the trail exceeds
the memory limit. -/
def move_player (room_data : Row) (room_loot : List String) (target_pos : Pos)
    (tail : List Entry) : List Entry :=
  let existing := tail.find? (fun e => e.pos == target_pos)
  let removed := tail.eraseP (fun e => e.pos == target_pos)
  let entry := existing.getD
    { pos := target_pos, room := room_data, loot := room_loot, looted := false }
  let tail2 := entry :: removed
  if MEMORY_LIMIT < tail2.length then tail2.dropLast else tail2

/-- The trails reachable from the initial one-entry trail at the origin by
any sequence of moves, with arbitrary procedural-generation results. -/
inductive Reachable : List Entry → Prop
  | init (room : Row) (loot : List String) :
      Reachable [{ pos := (0, 0), room := room, loot := loot, looted := false }]
  | step (t : List Entry) (room : Row) (loot : List String) (target : Pos) :
      Reachable t → Reachable (move_player room loot target t)

/-- Axis-aligned view rectangle. -/
structure ViewB where
  min_x : Int
  max_x : Int
  min_y : Int
  max_y : Int
deriving DecidableEq

/-- The per-frame view bounds: the bounding box of all trail positions
expanded by the buffer on each side; min and max of an empty sequence
raise in the source, modeled as none. -/
def viewBounds (tail : List Entry) : Option ViewB :=
  match tail.map Entry.pos with
  | [] => none
  | p :: ps =>
    let xs := (p :: ps).map Prod.fst
    let ys := (p :: ps).map Prod.snd
    some { min_x := xs.foldl min p.1 - BUFFER_TILES
         , max_x := xs.foldl max p.1 + BUFFER_TILES
         , min_y := ys.foldl min p.2 - BUFFER_TILES
         , max_y := ys.foldl max p.2 + BUFFER_TILES }

/-- An item template: the name key may be missing entirely (none); the tier
columns are read through dict.get with an empty-string default, so a missing
tier key and an empty cell are both the empty string. -/
structure ItemTemplate where
  name : Option String
  tier0 : String
  tier1 : String
  tier2 : String
deriving DecidableEq, Inhabited

/-- The source's blank test on an item name: falsy or whitespace-only
(empty, or stripping to the empty string). -/
def isBlank (s : String) : Bool := s.data.all Char.isWhitespace

/-- item_data.get of the tier key for an integer index, with an
empty-string default: indices outside 0..2 are keys the record lacks. -/
def tierGet (d : ItemTemplate) (t : Int) : String :=
  if t = 0 then d.tier0 else if t = 1 then d.tier1 else if t = 2 then d.tier2 else ""

/-- range(tier - 1, -1, -1): the fallback tier indices counting down to 0,
empty when tier is at most 0. -/
def descTiers (tier : Int) : List Int :=
  if tier ≤ 0 then [] else ((List.range tier.toNat).reverse).map (fun n => (n : Int))

/-- wanderer.py generate_item after the random.choice draw: look up the tier
capped above at 2, on a blank walk the fallback tiers down for the first
non-blank name, then the bare name field, then the literal default; the
result is stripped. -/
def generate_item_pick (d : ItemTemplate) (tier : Int) : String :=
  let first := tierGet d (min tier 2)
  let nm :=
    if isBlank first then
      match ((descTiers tier).map (tierGet d)).find? (fun s => !(isBlank s)) with
      | some v => v
      | none =>
        match d.name with
        | some n => n
        | none => "Unknown Item"
    else first
  pyStrip nm

/-- wanderer.py generate_item: an empty pool yields the hard default;
random.choice on a non-empty pool is modeled by the drawn index k taken
modulo the pool length. -/
def generate_item (item_list : List ItemTemplate) (k : Nat) (tier : Int) : String :=
  match item_list with
  | [] => "Small Pebble"
  | d :: rest => generate_item_pick ((d :: rest).getD (k % (d :: rest).length) d) tier

/-- int(room_data.get('max_loot', 6)) of wanderer.py: missing key gives the
integer default 6, and a ValueError on parsing is replaced by 6. -/
def maxLootV1 (room : Row) : Int :=
  match rowGet room "max_loot" with
  | none => 6
  | some s => (pyInt? s).getD 6

/-- Split a character run at the literal dots. -/
def splitDot : List Char → List (List Char)
  | [] => [[]]
  | c :: rest =>
    match splitDot rest with
    | [] => [[c]]
    | h :: t => if c = '.' then [] :: h :: t else (c :: h) :: t

/-- The truncation toward zero of an unsigned plain decimal literal:
integer digits, an optional dot, and fractional digits, at least one digit
in all; the fraction is discarded by the truncation. -/
def floatTruncNat? (u : List Char) : Option Nat :=
  match splitDot u with
  | [ip] => decNat? ip
  | [ip, fp] =>
    if (ip.isEmpty || (decNat? ip).isSome) && (fp.isEmpty || (decNat? fp).isSome)
        && !(ip.isEmpty && fp.isEmpty)
    then some ((decNat? ip).getD 0)
    else none
  | _ => none

/-- int(float(s)) on plain decimal literals: optional sign, integer digits,
optional fractional digits, truncated toward zero; exponent forms and
special values are treated as unparseable. -/
def pyFloatInt? (s : String) : Option Int :=
  match pyStripChars s.data with
  | '-' :: rest => (floatTruncNat? rest).map (fun n => -(n : Int))
  | '+' :: rest => (floatTruncNat? rest).map (fun n => (n : Int))
  | cs => (floatTruncNat? cs).map (fun n => (n : Int))

/-- int(float(room_data.get('max_loot', 3))) of wanderer-v0-3.py: missing
key gives the default 3, and a ValueError or TypeError is replaced by 3. -/
def maxLootV3 (room : Row) : Int :=
  match rowGet room "max_loot" with
  | none => 3
  | some s => (pyFloatInt? s).getD 3

/-- wanderer.py generate_room_loot: num_items = min(randint(1, 3), max_loot)
items are drawn; the random source randint and the per-draw item results
(each standing for a tier roll plus a generate_item call) are parameters. -/
def generate_room_loot (randint : Int → Int → Int) (room : Row)
    (itemDraws : Nat → String) : List String :=
  let max_loot := maxLootV1 room
  let num_items := min (randint 1 3) max_loot
  (List.range num_items.toNat).map itemDraws

/-- wanderer-v0-3.py GameLogic.generate_room_loot: an explicit empty return
on non-positive max_loot, then randint(1, min(max_loot, 5)) draws. -/
def generate_room_loot_v3 (randint : Int → Int → Int) (room : Row)
    (itemDraws : Nat → String) : List String :=
  let max_loot := maxLootV3 room
  if max_loot ≤ 0 then []
  else (List.range (randint 1 (min max_loot 5)).toNat).map itemDraws

/-- The backpack: an insertion-ordered mapping from item name to held count,
as a Python dict is. -/
abbrev Backpack := List (String × Nat)

/-- sum(backpack.values()). -/
def bpTotal (bp : Backpack) : Nat := (bp.map (fun p => p.2)).sum

/-- backpack.get(name, 0). -/
def bpGet (bp : Backpack) (k : String) : Nat :=
  match bp.find? (fun p => p.1 == k) with
  | some p => p.2
  | none => 0

/-- Dict assignment backpack[name] = v: overwrite the existing binding in
place, else append a new one. -/
def bpSet (bp : Backpack) (k : String) (v : Nat) : Backpack :=
  match bp with
  | [] => [(k, v)]
  | p :: rest => if p.1 == k then (k, v) :: rest else p :: bpSet rest k v

/-- add_to_backpack: on space, increment the item's count (creating the key
from 0) and report success, else leave the backpack unchanged and fail. -/
def add_to_backpack (bp : Backpack) (item : String) : Backpack × Bool :=
  if bpTotal bp < BACKPACK_CAPACITY then (bpSet bp item (bpGet bp item + 1), true)
  else (bp, false)

/-- Folding add_to_backpack over a list of item names. -/
def bpAddAll (bp : Backpack) (items : List String) : Backpack :=
  items.foldl (fun b i => (add_to_backpack b i).1) bp

/-- The result of a take-loot action: the updated trail entry, the updated
backpack, and the narrative message. -/
structure TakeResult where
  entry : Entry
  backpack : Backpack
  message : String
deriving DecidableEq

/-- wanderer-v0-3.py GameLogic.action_take_loot on the current trail entry:
no loot is an informational no-op; a full backpack is a failure leaving the
loot unchanged; otherwise pop the first loot item, add it to the backpack,
and set looted only once the loot list has become empty. -/
def action_take_loot (e : Entry) (bp : Backpack) : TakeResult :=
  match e.loot with
  | [] => ⟨e, bp, "There\x27s nothing to take."⟩
  | item :: rest =>
    if BACKPACK_CAPACITY ≤ bpTotal bp then ⟨e, bp, "Your backpack is full!"⟩
    else
      let bp2 := (add_to_backpack bp item).1
      let e2 : Entry :=
        { e with loot := rest, looted := if rest.isEmpty then true else e.looted }
      ⟨e2, bp2, "You found " ++ item ++ "!"⟩

/-- Repeated invocation of the take-loot action, threading entry and
backpack and dropping the messages. -/
def takeLootIter : Nat → Entry × Backpack → Entry × Backpack
  | 0, s => s
  | n + 1, s =>
    let r := action_take_loot s.1 s.2
    takeLootIter n (r.entry, r.backpack)

/-- PAN_SMOOTHING = 0.85, modeled as the exact rational the literal denotes. -/
def PAN_SMOOTHING : ℚ := 0.85

/-- One camera tick on one axis: offset += (target - offset) * (1 - PAN_SMOOTHING). -/
def camera_tick (offset target : ℚ) : ℚ :=
  offset + (target - offset) * (1 - PAN_SMOOTHING)

/-- n camera ticks against a static target. -/
def camera_iter (target : ℚ) : Nat → ℚ → ℚ
  | 0, offset => offset
  | n + 1, offset => camera_iter target n (camera_tick offset target)

/-- A sample room record used to instantiate theorems. -/
def roomW : Row := [("name", "Empty Room"), ("probability", "1")]

/-- A sample initial trail entry used to instantiate theorems. -/
def entryW : Entry := { pos := (0, 0), room := roomW, loot := ["Small Pebble"], looted := false }

/-- A second sample trail entry, at (1, 0), used to instantiate theorems. -/
def entryX : Entry := { pos := (1, 0), room := [], loot := ["gem"], looted := true }

/-- A sample trail entry used to instantiate the take-loot theorems. -/
def entryL : Entry := { pos := (0, 0), room := [], loot := ["a", "b"], looted := false }

/-- A sample record with a positive parseable probability. -/
def rowA : Row := [("probability", "2"), ("name", "A")]

/-- A sample record with a non-integer probability. -/
def rowB : Row := [("probability", "x")]

/-- A sample record with probability zero. -/
def rowC : Row := [("probability", "0")]

/-! ## Lemmas about the weighted pool -/

theorem weightedRooms_cons (r : Row) (rest : List Row) :
    weightedRooms (r :: rest) = List.replicate (weightNat r) r ++ weightedRooms rest := by
  simp only [weightedRooms, weightNat]
  cases probValue r with
  | none => simp
  | some p =>
    by_cases hp : 0 < p
    · simp [hp]
    · simp [hp]

theorem mem_weightedRooms {x : Row} {rd : List Row} (h : x ∈ weightedRooms rd) :
    x ∈ rd ∧ 0 < weightNat x := by
  induction rd with
  | nil => simp [weightedRooms] at h
  | cons r rest ih =>
    rw [weightedRooms_cons] at h
    rcases List.mem_append.mp h with h1 | h2
    · obtain ⟨hn, rfl⟩ := List.mem_replicate.mp h1
      exact ⟨List.mem_cons_self _ _, Nat.pos_of_ne_zero hn⟩
    · obtain ⟨hx, hw⟩ := ih h2
      exact ⟨List.mem_cons_of_mem _ hx, hw⟩

theorem count_weightedRooms {rd : List Row} (hnd : rd.Nodup) {r : Row} (hr : r ∈ rd) :
    (weightedRooms rd).count r = weightNat r := by
  induction rd with
  | nil => cases hr
  | cons a rest ih =>
    obtain ⟨hna, hnrest⟩ := List.nodup_cons.mp hnd
    rw [weightedRooms_cons, List.count_append]
    rcases List.mem_cons.mp hr with rfl | hr'
    · rw [List.count_replicate_self,
        List.count_eq_zero.mpr (fun hmem => hna (mem_weightedRooms hmem).1)]
      omega
    · have hne : a ≠ r := fun heq => hna (heq ▸ hr')
      rw [List.count_replicate, if_neg (by simp [hne]), ih hnrest hr']
      simp

theorem weightNat_of_some {r : Row} {p : Int} (h : probValue r = some p) :
    weightNat r = if 0 < p then p.toNat else 0 := by
  unfold weightNat
  rw [h]

theorem weightNat_eq_zero_iff (r : Row) :
    weightNat r = 0 ↔ (probValue r = none ∨ ∃ p : Int, probValue r = some p ∧ p ≤ 0) := by
  cases h : probValue r with
  | none => simp [weightNat, h]
  | some p =>
    rw [weightNat_of_some h]
    by_cases hp : 0 < p
    · rw [if_pos hp]
      constructor
      · intro h0
        exfalso
        omega
      · rintro (hc | ⟨q, hq, hq0⟩)
        · cases hc
        · injection hq with hq2
          omega
    · rw [if_neg hp]
      exact ⟨fun _ => Or.inr ⟨p, rfl, by omega⟩, fun _ => rfl⟩

theorem create_weighted_lists_v2_eq (rd : List Row) :
    create_weighted_lists_v2 rd = weightedRooms rd := by
  induction rd with
  | nil => rfl
  | cons r rest ih =>
    simp only [create_weighted_lists_v2, weightedRooms]
    cases probValue r with
    | none => exact ih
    | some p =>
      by_cases hp : 0 < p
      · simp [hp, ih]
      · have h0 : p.toNat = 0 := by omega
        simp [hp, h0, ih]

/-- C4 counterexample: wanderer-v0-2.py's create_weighted_lists has no
fallback to the first raw record: on the non-empty record set [rowC],
whose only record has probability "0", the room pool stays empty, so the
claim's conjunct that an empty pool with non-empty data equals the
one-element list of the first record (and is hence non-empty) fails for
that cited variant. -/
theorem create_weighted_lists_v2_counterexample :
    create_weighted_lists_v2 [rowC] = [] ∧ ([rowC] : List Row) ≠ [] ∧
      create_weighted_lists_v2 [rowC] ≠ [rowC] :=
  ⟨by decide, by decide, by decide⟩

/-- C4 (amended): in both cited variants every record with parseable
probability p > 0 appears exactly p times in the weighted pool and records
with missing, non-integer, or non-positive probability are excluded.
wanderer.py's create_weighted_room_list additionally falls back to the
one-element list of the first raw record when the weighted pool is empty,
so its pool is non-empty whenever data exists; wanderer-v0-2.py's
create_weighted_lists builds the bare weighted pool with no fallback and
stays empty when every record has weight zero. -/
theorem create_weighted_room_list_spec_amended (rd : List Row) (hne : rd ≠ [])
    (hnd : rd.Nodup) :
    (∃ pool, create_weighted_room_list rd = some pool ∧ pool ≠ [] ∧
      (∀ r : Row, weightNat r = 0 ↔
        (probValue r = none ∨ ∃ p : Int, probValue r = some p ∧ p ≤ 0)) ∧
      (weightedRooms rd ≠ [] →
        pool = weightedRooms rd ∧
        (∀ r ∈ rd, ∀ p : Int, probValue r = some p → 0 < p → pool.count r = p.toNat) ∧
        (∀ r ∈ rd, weightNat r = 0 → r ∉ pool)) ∧
      (weightedRooms rd = [] → pool = rd.take 1)) ∧
    (create_weighted_lists_v2 rd = weightedRooms rd ∧
      (∀ r ∈ rd, ∀ p : Int, probValue r = some p → 0 < p →
        (create_weighted_lists_v2 rd).count r = p.toNat) ∧
      (∀ r ∈ rd, weightNat r = 0 → r ∉ create_weighted_lists_v2 rd)) := by
  refine ⟨?_, create_weighted_lists_v2_eq rd, ?_, ?_⟩
  case refine_2 =>
    intro r hr p hp hpos
    rw [create_weighted_lists_v2_eq, count_weightedRooms hnd hr,
      weightNat_of_some hp]
    simp [hpos]
  case refine_3 =>
    intro r hr h0 hmem
    rw [create_weighted_lists_v2_eq] at hmem
    have := (mem_weightedRooms hmem).2
    omega
  by_cases hw : weightedRooms rd = []
  · obtain ⟨a, rest, rfl⟩ : ∃ a rest, rd = a :: rest := by
      cases rd with
      | nil => exact absurd rfl hne
      | cons a rest => exact ⟨a, rest, rfl⟩
    refine ⟨[a], ?_, by simp, weightNat_eq_zero_iff, fun h => absurd hw h, fun _ => by simp⟩
    simp [create_weighted_room_list, hw]
  · refine ⟨weightedRooms rd, ?_, hw, weightNat_eq_zero_iff, ?_, fun h => absurd h hw⟩
    · simp [create_weighted_room_list, hw]
    · refine fun _ => ⟨rfl, ?_, ?_⟩
      · intro r hr p hp hpos
        rw [count_weightedRooms hnd hr]
        rw [weightNat_of_some hp, if_pos hpos]
      · intro r hr h0 hmem
        have := (mem_weightedRooms hmem).2
        omega

/-- Witness: the per-variant pool specification evaluated on a concrete
record set with a weight-2 record, an unparseable record, and a weight-0
record. -/
theorem create_weighted_room_list_spec_amended_witness :
    (∃ pool, create_weighted_room_list [rowA, rowB, rowC] = some pool ∧ pool ≠ [] ∧
      (∀ r : Row, weightNat r = 0 ↔
        (probValue r = none ∨ ∃ p : Int, probValue r = some p ∧ p ≤ 0)) ∧
      (weightedRooms [rowA, rowB, rowC] ≠ [] →
        pool = weightedRooms [rowA, rowB, rowC] ∧
        (∀ r ∈ [rowA, rowB, rowC], ∀ p : Int, probValue r = some p → 0 < p →
          pool.count r = p.toNat) ∧
        (∀ r ∈ [rowA, rowB, rowC], weightNat r = 0 → r ∉ pool)) ∧
      (weightedRooms [rowA, rowB, rowC] = [] → pool = [rowA, rowB, rowC].take 1)) ∧
    (create_weighted_lists_v2 [rowA, rowB, rowC] = weightedRooms [rowA, rowB, rowC] ∧
      (∀ r ∈ [rowA, rowB, rowC], ∀ p : Int, probValue r = some p → 0 < p →
        (create_weighted_lists_v2 [rowA, rowB, rowC]).count r = p.toNat) ∧
      (∀ r ∈ [rowA, rowB, rowC], weightNat r = 0 →
        r ∉ create_weighted_lists_v2 [rowA, rowB, rowC])) :=
  create_weighted_room_list_spec_amended [rowA, rowB, rowC] (by decide) (by decide)

/-! ## Lemmas about the trail -/

theorem move_player_length_le (room : Row) (loot : List String) (target : Pos)
    (t : List Entry) (h : t.length ≤ MEMORY_LIMIT) :
    (move_player room loot target t).length ≤ MEMORY_LIMIT := by
  have hle : (t.eraseP (fun e => e.pos == target)).length ≤ t.length :=
    List.length_eraseP_le t
  simp only [move_player, MEMORY_LIMIT] at *
  split
  · rename_i h12
    simp only [List.length_dropLast, List.length_cons] at *
    omega
  · rename_i h12
    omega

theorem move_player_ne_nil (room : Row) (loot : List String) (target : Pos)
    (t : List Entry) : move_player room loot target t ≠ [] := by
  simp only [move_player]
  split
  · rename_i h12
    rw [← List.length_pos, List.length_dropLast]
    simp only [MEMORY_LIMIT, List.length_cons] at h12
    simp only [List.length_cons]
    omega
  · simp

theorem eraseP_posmap (target : Pos) (t : List Entry) (h : (t.map Entry.pos).Nodup) :
    target ∉ (t.eraseP (fun e => e.pos == target)).map Entry.pos ∧
    ((t.eraseP (fun e => e.pos == target)).map Entry.pos).Nodup := by
  induction t with
  | nil => simp
  | cons e rest ih =>
    rw [List.map_cons, List.nodup_cons] at h
    obtain ⟨hnm, hnd⟩ := h
    by_cases hpos : (e.pos == target) = true
    · simp only [List.eraseP_cons, hpos, cond_true]
      have he : e.pos = target := by simpa using hpos
      exact ⟨he ▸ hnm, hnd⟩
    · have hfalse : (e.pos == target) = false := by simpa using hpos
      simp only [List.eraseP_cons, hfalse, cond_false]
      obtain ⟨ih1, ih2⟩ := ih hnd
      have hsub : ((rest.eraseP (fun x => x.pos == target)).map Entry.pos).Sublist
          (rest.map Entry.pos) := (List.eraseP_sublist rest).map Entry.pos
      refine ⟨?_, ?_⟩
      · rw [List.map_cons]
        intro hmem
        rcases List.mem_cons.mp hmem with heq | hmem'
        · exact hpos (by simp [heq.symm])
        · exact ih1 hmem'
      · rw [List.map_cons, List.nodup_cons]
        exact ⟨fun hmem => hnm (hsub.subset hmem), ih2⟩

theorem move_player_posmap_nodup (room : Row) (loot : List String) (target : Pos)
    (t : List Entry) (h : (t.map Entry.pos).Nodup) :
    ((move_player room loot target t).map Entry.pos).Nodup := by
  have hpos : ((t.find? (fun e => e.pos == target)).getD
      { pos := target, room := room, loot := loot, looted := false }).pos = target := by
    cases hfind : t.find? (fun e => e.pos == target) with
    | none => rfl
    | some e => simpa using List.find?_some hfind
  obtain ⟨h1, h2⟩ := eraseP_posmap target t h
  have hnodup2 : ((((t.find? (fun e => e.pos == target)).getD
      { pos := target, room := room, loot := loot, looted := false }) ::
        t.eraseP (fun e => e.pos == target)).map Entry.pos).Nodup := by
    rw [List.map_cons, List.nodup_cons, hpos]
    exact ⟨h1, h2⟩
  simp only [move_player]
  split
  · exact hnodup2.sublist ((List.dropLast_sublist _).map Entry.pos)
  · exact hnodup2

/-- C1: starting from the initial one-entry trail, after every sequence of
moves the trail length stays at most MEMORY_LIMIT (12). -/
theorem trail_capacity (t : List Entry) (h : Reachable t) : t.length ≤ MEMORY_LIMIT := by
  induction h with
  | init room loot => simp [MEMORY_LIMIT]
  | step t room loot target _ ih => exact move_player_length_le room loot target t ih

/-- Witness: the capacity bound evaluated on a concrete reachable trail. -/
theorem trail_capacity_witness :
    (move_player roomW ["Small Pebble"] (1, 0) [entryW]).length ≤ MEMORY_LIMIT :=
  trail_capacity _
    (Reachable.step _ roomW ["Small Pebble"] (1, 0) (Reachable.init roomW ["Small Pebble"]))

/-- C2: on every reachable trail the entry positions are pairwise
distinct. -/
theorem trail_positions_distinct (t : List Entry) (h : Reachable t) :
    (t.map Entry.pos).Nodup := by
  induction h with
  | init room loot => simp
  | step t room loot target _ ih => exact move_player_posmap_nodup room loot target t ih

/-- Witness: position distinctness evaluated on a concrete reachable trail. -/
theorem trail_positions_distinct_witness :
    ((move_player roomW [] (0, 1) [entryW]).map Entry.pos).Nodup :=
  trail_positions_distinct _
    (Reachable.step _ roomW [] (0, 1) (Reachable.init roomW ["Small Pebble"]))

/-- C3: a move to a position already on a capacity-respecting trail returns
exactly the found entry (room, loot, and looted fields untouched) moved to
index 0, followed by the remaining entries unchanged and in order; the
generated room and loot are not consulted. -/
theorem move_player_revisit (t : List Entry) (e : Entry) (room : Row) (loot : List String)
    (target : Pos) (hlen : t.length ≤ MEMORY_LIMIT)
    (hfind : t.find? (fun x => x.pos == target) = some e) :
    move_player room loot target t = e :: t.eraseP (fun x => x.pos == target) := by
  have hmem : e ∈ t := List.mem_of_find?_eq_some hfind
  have hpe := List.find?_some hfind
  have hlen2 : (t.eraseP (fun x => x.pos == target)).length + 1 = t.length := by
    rw [List.length_eraseP_of_mem hmem hpe]
    have : 0 < t.length := List.length_pos.mpr (List.ne_nil_of_mem hmem)
    omega
  have hnotlt : ¬ (MEMORY_LIMIT < (e :: t.eraseP (fun x => x.pos == target)).length) := by
    simp only [List.length_cons]
    omega
  simp only [move_player, hfind, Option.getD_some, if_neg hnotlt]

/-- Witness: revisiting the second entry of a two-entry trail. -/
theorem move_player_revisit_witness :
    move_player roomW [] (1, 0) [entryW, entryX]
      = entryX :: [entryW, entryX].eraseP (fun x => x.pos == (1, 0)) :=
  move_player_revisit [entryW, entryX] entryX roomW [] (1, 0) (by decide) (by decide)

/-- C10: every reachable trail is non-empty, so reading the current cell at
index 0 and the min/max over trail positions in the view-bounds computation
are always defined. -/
theorem trail_nonempty_safety (t : List Entry) (h : Reachable t) :
    0 < t.length ∧ (∃ e, t.head? = some e) ∧ ∃ b, viewBounds t = some b := by
  have hne : t ≠ [] := by
    induction h with
    | init room loot => simp
    | step t room loot target _ _ => exact move_player_ne_nil room loot target t
  obtain ⟨e, rest, rfl⟩ := List.exists_cons_of_ne_nil hne
  refine ⟨by simp, ⟨e, rfl⟩, ?_⟩
  simp only [viewBounds, List.map_cons]
  exact ⟨_, rfl⟩

/-- Witness: the safety facts evaluated on a concrete reachable trail. -/
theorem trail_nonempty_safety_witness :
    0 < ([entryW] : List Entry).length ∧ (∃ e, ([entryW] : List Entry).head? = some e) ∧
      ∃ b, viewBounds [entryW] = some b :=
  trail_nonempty_safety _ (Reachable.init roomW ["Small Pebble"])

/-! ## Lemmas about the item generator -/

theorem descTiers_ofNat_succ (n : Nat) :
    descTiers ((n + 1 : Nat) : Int) = ((n : Nat) : Int) :: descTiers ((n : Nat) : Int) := by
  cases n with
  | zero => decide
  | succ m =>
    simp only [descTiers]
    rw [if_neg (by omega), if_neg (by omega)]
    have h1 : ((((m + 1 : Nat) + 1 : Nat) : Int)).toNat = m + 2 := by omega
    have h2 : (((m + 1 : Nat) : Int)).toNat = m + 1 := by omega
    rw [h1, h2, List.range_succ]
    simp

theorem tierGet_of_ge_three (d : ItemTemplate) (n : Nat) (h : 3 ≤ n) :
    tierGet d ((n : Nat) : Int) = "" := by
  unfold tierGet
  rw [if_neg (by omega), if_neg (by omega), if_neg (by omega)]

theorem generate_item_pick_step (d : ItemTemplate) (n : Nat) (hn : 2 ≤ n) :
    generate_item_pick d ((n + 1 : Nat) : Int) = generate_item_pick d ((n : Nat) : Int) := by
  have hmin1 : min ((n + 1 : Nat) : Int) 2 = 2 := min_eq_right (by omega)
  have hmin2 : min ((n : Nat) : Int) 2 = 2 := min_eq_right (by omega)
  simp only [generate_item_pick, hmin1, hmin2]
  by_cases hb : isBlank (tierGet d 2) = true
  · have hskip : isBlank (tierGet d ((n : Nat) : Int)) = true := by
      rcases Nat.eq_or_lt_of_le hn with heq | hlt
      · subst heq
        simpa using hb
      · rw [tierGet_of_ge_three d n (by omega)]
        rfl
    rw [if_pos hb, if_pos hb, descTiers_ofNat_succ, List.map_cons, List.find?_cons]
    simp only [hskip, Bool.not_true, cond_false]
  · rw [if_neg hb, if_neg hb]

theorem generate_item_pick_ge_two (d : ItemTemplate) (n : Nat) (hn : 2 ≤ n) :
    generate_item_pick d ((n : Nat) : Int) = generate_item_pick d 2 := by
  induction n with
  | zero => omega
  | succ m ih =>
    rcases Nat.lt_or_ge m 2 with h | h
    · have hm : m = 1 := by omega
      subst hm
      norm_num
    · rw [generate_item_pick_step d m h, ih h]

theorem generate_item_clamp_nonneg (l : List ItemTemplate) (k : Nat) (tier : Int)
    (h : 0 ≤ tier) : generate_item l k tier = generate_item l k (max 0 (min tier 2)) := by
  obtain ⟨n, rfl⟩ := Int.eq_ofNat_of_zero_le h
  rcases Nat.lt_or_ge n 3 with h3 | h3
  · have harg : max 0 (min ((n : Nat) : Int) 2) = ((n : Nat) : Int) := by
      rw [min_eq_left (by omega), max_eq_right (by omega)]
    rw [harg]
  · have harg : max 0 (min ((n : Nat) : Int) 2) = 2 := by
      rw [min_eq_right (by omega), max_eq_right (by omega)]
    rw [harg]
    cases l with
    | nil => rfl
    | cons d rest =>
      simp only [generate_item]
      exact generate_item_pick_ge_two _ n (by omega)

theorem pyStrip_eq_empty_iff (s : String) : pyStrip s = "" ↔ isBlank s = true := by
  unfold pyStrip pyStripChars isBlank
  rw [show ("" : String) = String.mk [] from rfl]
  constructor
  · intro h
    have hnil : ((s.data.dropWhile Char.isWhitespace).reverse.dropWhile
        Char.isWhitespace).reverse = [] := by
      injection h
    rw [List.reverse_eq_nil_iff, List.dropWhile_eq_nil_iff] at hnil
    rw [List.all_eq_true]
    intro c hc
    rcases List.mem_append.mp
        ((List.takeWhile_append_dropWhile (p := Char.isWhitespace) (l := s.data)).symm ▸ hc)
      with hmem | hmem
    · exact List.mem_takeWhile_imp hmem
    · exact hnil c (List.mem_reverse.mpr hmem)
  · intro h
    rw [List.all_eq_true] at h
    have h1 : s.data.dropWhile Char.isWhitespace = [] := by
      rw [List.dropWhile_eq_nil_iff]
      exact fun c hc => h c hc
    rw [h1]
    rfl

theorem generate_item_pick_ne_empty (d : ItemTemplate) (tier : Int)
    (hname : ∀ s, d.name = some s → isBlank s = false) :
    generate_item_pick d tier ≠ "" := by
  simp only [generate_item_pick]
  by_cases hb : isBlank (tierGet d (min tier 2))
  · simp only [hb, if_true]
    cases hf : ((descTiers tier).map (tierGet d)).find? (fun s => !(isBlank s)) with
    | some v =>
      have hv := List.find?_some hf
      intro hcontra
      rw [pyStrip_eq_empty_iff] at hcontra
      simp [hcontra] at hv
    | none =>
      cases hn : d.name with
      | some nm =>
        intro hcontra
        rw [pyStrip_eq_empty_iff] at hcontra
        rw [hname nm hn] at hcontra
        cases hcontra
      | none => decide
  · simp only [hb, if_false]
    intro hcontra
    rw [pyStrip_eq_empty_iff] at hcontra
    exact hb hcontra

theorem generate_item_ne_empty (l : List ItemTemplate) (k : Nat) (tier : Int)
    (h : ∀ d ∈ l, ∀ s, d.name = some s → isBlank s = false) :
    generate_item l k tier ≠ "" := by
  cases l with
  | nil => simp [generate_item]
  | cons d rest =>
    simp only [generate_item]
    apply generate_item_pick_ne_empty
    intro s hs
    have hlt : k % (d :: rest).length < (d :: rest).length :=
      Nat.mod_lt _ (by simp)
    have hmem : (d :: rest).getD (k % (d :: rest).length) d ∈ d :: rest := by
      rw [List.getD_eq_getElem (d :: rest) d hlt]
      exact List.getElem_mem hlt
    exact h _ hmem s hs

/-- C5 counterexample: the item generator does not behave as if the tier
were clamped to the range 0..2, and its result can be empty. At tier -1 the
capped key misses, the fallback loop range(-2, -1, -1) is empty, and the
bare name "Z" is returned instead of the clamped-to-0 result "Y"; and a
template whose name field is present but empty with all tiers blank yields
the empty string. -/
theorem generate_item_clamp_counterexample :
    (generate_item [{ name := some "Z", tier0 := "Y", tier1 := "", tier2 := "" }] 0 (-1) = "Z" ∧
     generate_item [{ name := some "Z", tier0 := "Y", tier1 := "", tier2 := "" }] 0
        (max 0 (min (-1) 2)) = "Y") ∧
    generate_item [{ name := some "", tier0 := "", tier1 := "", tier2 := "" }] 0 2 = "" :=
  ⟨⟨by decide, by decide⟩, by decide⟩

/-- C5 (amended): for every non-negative tier the generator behaves as if
tier were clamped to 0..2 (the code caps only above at 2; at negative tiers
the lookup misses and falls through to the name field); the result is
non-empty provided every template name field is absent or non-blank; and
the two concrete fallback examples of the claim hold. -/
theorem generate_item_spec_amended :
    (∀ (l : List ItemTemplate) (k : Nat) (tier : Int), 0 ≤ tier →
        generate_item l k tier = generate_item l k (max 0 (min tier 2))) ∧
    (∀ (l : List ItemTemplate) (k : Nat) (tier : Int),
        (∀ d ∈ l, ∀ s, d.name = some s → isBlank s = false) →
        generate_item l k tier ≠ "") ∧
    (generate_item [{ name := some "N", tier0 := "Y", tier1 := "X", tier2 := "" }] 0 2 = "X") ∧
    (generate_item [{ name := some "N", tier0 := "Y", tier1 := "X", tier2 := "" }] 0 0 = "Y") ∧
    (∀ tier : Int,
        generate_item [{ name := some "Z", tier0 := "", tier1 := "", tier2 := "" }] 0 tier
          = "Z") := by
  refine ⟨generate_item_clamp_nonneg, generate_item_ne_empty, by decide, by decide, ?_⟩
  intro tier
  have htg : ∀ t : Int,
      tierGet { name := some "Z", tier0 := "", tier1 := "", tier2 := "" } t = "" := by
    intro t
    unfold tierGet
    split
    · rfl
    · split
      · rfl
      · split
        · rfl
        · rfl
  show generate_item_pick { name := some "Z", tier0 := "", tier1 := "", tier2 := "" } tier = "Z"
  simp only [generate_item_pick]
  have hfind : ((descTiers tier).map
      (tierGet { name := some "Z", tier0 := "", tier1 := "", tier2 := "" })).find?
      (fun s => !(isBlank s)) = none := by
    rw [List.find?_eq_none]
    intro x hx
    obtain ⟨t, _, rfl⟩ := List.mem_map.mp hx
    rw [htg t]
    decide
  rw [htg, hfind]
  decide

/-- Witness: the clamp equation applied at tier 7 on a concrete template. -/
theorem generate_item_spec_amended_witness :
    generate_item [{ name := some "N", tier0 := "Y", tier1 := "X", tier2 := "" }] 0 7
      = generate_item [{ name := some "N", tier0 := "Y", tier1 := "X", tier2 := "" }] 0
          (max 0 (min 7 2)) :=
  generate_item_spec_amended.1 _ 0 7 (by decide)

/-! ## Lemmas about loot generation -/

/-- C6 counterexample: in wanderer.py the loot count is
min(randint(1, 3), max_loot); for a room with max_loot = 2 the three
equiprobable draws 1, 2, 3 give the counts 1, 2, 2, so one draw yields
count 1 and two draws yield count 2: the count is not a uniform random
integer over the interval from 1 to min(max_loot, 3). -/
theorem generate_room_loot_uniform_counterexample :
    (([1, 2, 3] : List Int).filter (fun r =>
        (generate_room_loot (fun _ _ => r) [("max_loot", "2")] (fun _ => "i")).length
          = 1)).length = 1 ∧
    (([1, 2, 3] : List Int).filter (fun r =>
        (generate_room_loot (fun _ _ => r) [("max_loot", "2")] (fun _ => "i")).length
          = 2)).length = 2 :=
  ⟨by decide, by decide⟩

/-- C6 (amended): both variants return an empty loot list whenever the
parsed max_loot is non-positive, regardless of the random draws, and an
unparseable max_loot is replaced by the fixed default (6 in wanderer.py,
3 in wanderer-v0-3.py). In wanderer.py the count equals
min(draw, max_loot) for a uniform draw in 1..3, so it lies in
1..min(max_loot, 3) but is not uniform there (it over-weights the top value
when max_loot = 2); in wanderer-v0-3.py the count equals the uniform
randint(1, min(max_loot, 5)) draw itself, hence is uniform on that range. -/
theorem generate_room_loot_spec_amended :
    (∀ (randint : Int → Int → Int) (room : Row) (f : Nat → String),
        maxLootV1 room ≤ 0 → generate_room_loot randint room f = []) ∧
    (∀ (randint : Int → Int → Int) (room : Row) (f : Nat → String),
        maxLootV3 room ≤ 0 → generate_room_loot_v3 randint room f = []) ∧
    (∀ (r : Int) (room : Row) (f : Nat → String), 1 ≤ r → r ≤ 3 → 0 < maxLootV1 room →
        ((generate_room_loot (fun _ _ => r) room f).length : Int) = min r (maxLootV1 room) ∧
        1 ≤ (generate_room_loot (fun _ _ => r) room f).length ∧
        ((generate_room_loot (fun _ _ => r) room f).length : Int)
          ≤ min (maxLootV1 room) 3) ∧
    (∀ (d : Int) (room : Row) (f : Nat → String), 1 ≤ d → d ≤ min (maxLootV3 room) 5 →
        0 < maxLootV3 room →
        ((generate_room_loot_v3 (fun _ _ => d) room f).length : Int) = d) ∧
    maxLootV1 [("max_loot", "abc")] = 6 ∧ maxLootV3 [("max_loot", "abc")] = 3 ∧
    (∀ (randint : Int → Int → Int) (f : Nat → String),
        generate_room_loot randint [("max_loot", "0")] f = []) ∧
    (∀ (randint : Int → Int → Int) (f : Nat → String),
        generate_room_loot_v3 randint [("max_loot", "0")] f = []) := by
  have h1 : ∀ (randint : Int → Int → Int) (room : Row) (f : Nat → String),
      maxLootV1 room ≤ 0 → generate_room_loot randint room f = [] := by
    intro randint room f h
    have hle : min (randint 1 3) (maxLootV1 room) ≤ 0 :=
      le_trans (min_le_right _ _) h
    simp [generate_room_loot, Int.toNat_of_nonpos hle]
  have h2 : ∀ (randint : Int → Int → Int) (room : Row) (f : Nat → String),
      maxLootV3 room ≤ 0 → generate_room_loot_v3 randint room f = [] := by
    intro randint room f h
    simp [generate_room_loot_v3, h]
  refine ⟨h1, h2, ?_, ?_, by decide, by decide,
    fun randint f => h1 randint _ f (by decide),
    fun randint f => h2 randint _ f (by decide)⟩
  · intro r room f hr1 hr3 hml
    have hc1 : 1 ≤ min r (maxLootV1 room) := le_min hr1 (by omega)
    have hcr : min r (maxLootV1 room) ≤ r := min_le_left _ _
    have hcm : min r (maxLootV1 room) ≤ maxLootV1 room := min_le_right _ _
    simp only [generate_room_loot, List.length_map, List.length_range]
    have hcast : ((min r (maxLootV1 room)).toNat : Int) = min r (maxLootV1 room) :=
      Int.toNat_of_nonneg (by omega)
    refine ⟨hcast, by omega, ?_⟩
    rw [hcast]
    exact le_min hcm (by omega)
  · intro d room f hd1 hd5 hml
    simp only [generate_room_loot_v3]
    rw [if_neg (by omega)]
    simp only [List.length_map, List.length_range]
    exact Int.toNat_of_nonneg (by omega)

/-- Witness: the v0-3 count equation applied at draw 3 with max_loot 7. -/
theorem generate_room_loot_spec_amended_witness :
    ((generate_room_loot_v3 (fun _ _ => 3) [("max_loot", "7")] (fun _ => "x")).length : Int)
      = 3 :=
  generate_room_loot_spec_amended.2.2.2.1 3 [("max_loot", "7")] (fun _ => "x")
    (by decide) (by decide) (by decide)

/-! ## Lemmas about the backpack -/

theorem bpGet_cons (x : String × Nat) (l : Backpack) (k : String) :
    bpGet (x :: l) k = if x.1 == k then x.2 else bpGet l k := by
  simp only [bpGet, List.find?_cons]
  by_cases h : (x.1 == k) = true
  · simp [h]
  · simp [h]

theorem bpTotal_cons (x : String × Nat) (l : Backpack) :
    bpTotal (x :: l) = x.2 + bpTotal l := by
  simp [bpTotal]

theorem bpGet_bpSet_self (bp : Backpack) (k : String) (v : Nat) :
    bpGet (bpSet bp k v) k = v := by
  induction bp with
  | nil => simp [bpSet, bpGet_cons]
  | cons p rest ih =>
    simp only [bpSet]
    by_cases h : (p.1 == k) = true
    · simp [h, bpGet_cons]
    · simp [h, bpGet_cons, ih]

theorem bpGet_bpSet_ne (bp : Backpack) (k k2 : String) (v : Nat) (hne : k2 ≠ k) :
    bpGet (bpSet bp k v) k2 = bpGet bp k2 := by
  have hkk2 : (k == k2) = false := beq_eq_false_iff_ne.mpr (fun h => hne h.symm)
  induction bp with
  | nil => simp [bpSet, bpGet_cons, hkk2, bpGet]
  | cons p rest ih =>
    simp only [bpSet]
    by_cases h : (p.1 == k) = true
    · have hp : p.1 = k := by simpa using h
      simp [bpGet_cons, hkk2, hp]
    · simp [h, bpGet_cons, ih]

theorem bpTotal_bpSet_succ (bp : Backpack) (k : String) :
    bpTotal (bpSet bp k (bpGet bp k + 1)) = bpTotal bp + 1 := by
  induction bp with
  | nil => simp [bpSet, bpGet, bpTotal]
  | cons p rest ih =>
    by_cases h : (p.1 == k) = true
    · simp [bpSet, h, bpGet_cons, bpTotal_cons]
      omega
    · simp [bpSet, h, bpGet_cons, bpTotal_cons, ih]
      omega

/-- C8: add_to_backpack succeeds and increments exactly the given item's
count by one (creating the key if absent) while the total held count is
strictly below BACKPACK_CAPACITY (20); at or above capacity it fails and
leaves the backpack unchanged; consequently a total within capacity stays
within capacity. -/
theorem add_to_backpack_spec :
    (∀ (bp : Backpack) (item : String), bpTotal bp < BACKPACK_CAPACITY →
        (add_to_backpack bp item).2 = true ∧
        (add_to_backpack bp item).1 = bpSet bp item (bpGet bp item + 1) ∧
        bpGet (add_to_backpack bp item).1 item = bpGet bp item + 1 ∧
        (∀ k, k ≠ item → bpGet (add_to_backpack bp item).1 k = bpGet bp k) ∧
        bpTotal (add_to_backpack bp item).1 = bpTotal bp + 1) ∧
    (∀ (bp : Backpack) (item : String), BACKPACK_CAPACITY ≤ bpTotal bp →
        add_to_backpack bp item = (bp, false)) ∧
    (∀ (bp : Backpack) (item : String), bpTotal bp ≤ BACKPACK_CAPACITY →
        bpTotal (add_to_backpack bp item).1 ≤ BACKPACK_CAPACITY) := by
  refine ⟨?_, ?_, ?_⟩
  · intro bp item h
    have hadd : add_to_backpack bp item = (bpSet bp item (bpGet bp item + 1), true) := by
      simp only [add_to_backpack, if_pos h]
    rw [hadd]
    exact ⟨rfl, rfl, bpGet_bpSet_self bp item _,
      fun k hk => bpGet_bpSet_ne bp item k _ hk, bpTotal_bpSet_succ bp item⟩
  · intro bp item h
    simp only [add_to_backpack]
    rw [if_neg (by omega)]
  · intro bp item h
    by_cases hlt : bpTotal bp < BACKPACK_CAPACITY
    · simp only [add_to_backpack, if_pos hlt, bpTotal_bpSet_succ bp item]
      omega
    · simp only [add_to_backpack, if_neg hlt]
      exact h

/-- Witness: a full backpack rejects a new item and is left unchanged. -/
theorem add_to_backpack_spec_witness :
    add_to_backpack [("coin", 20)] "gem" = ([("coin", 20)], false) :=
  add_to_backpack_spec.2.1 [("coin", 20)] "gem" (by decide)

/-! ## Lemmas about the take-loot action -/

theorem action_take_loot_nil (e : Entry) (bp : Backpack) (h : e.loot = []) :
    action_take_loot e bp = ⟨e, bp, "There\x27s nothing to take."⟩ := by
  simp only [action_take_loot, h]

theorem action_take_loot_full (e : Entry) (bp : Backpack) (hl : e.loot ≠ [])
    (h : BACKPACK_CAPACITY ≤ bpTotal bp) :
    action_take_loot e bp = ⟨e, bp, "Your backpack is full!"⟩ := by
  obtain ⟨item, rest, hloot⟩ : ∃ i r, e.loot = i :: r := by
    cases hle : e.loot with
    | nil => exact absurd hle hl
    | cons i r => exact ⟨i, r, rfl⟩
  simp only [action_take_loot, hloot, if_pos h]

theorem action_take_loot_cons (e : Entry) (bp : Backpack) (item : String)
    (rest : List String) (hl : e.loot = item :: rest)
    (hcap : bpTotal bp < BACKPACK_CAPACITY) :
    action_take_loot e bp =
      ⟨{ e with loot := rest, looted := if rest.isEmpty then true else e.looted },
        bpSet bp item (bpGet bp item + 1), "You found " ++ item ++ "!"⟩ := by
  simp only [action_take_loot, hl]
  rw [if_neg (by omega)]
  simp only [add_to_backpack, if_pos hcap]

theorem action_take_loot_cons_more (e : Entry) (bp : Backpack) (item r2 : String)
    (rrest : List String) (hl : e.loot = item :: r2 :: rrest)
    (hcap : bpTotal bp < BACKPACK_CAPACITY) :
    action_take_loot e bp =
      ⟨{ e with loot := r2 :: rrest }, bpSet bp item (bpGet bp item + 1),
        "You found " ++ item ++ "!"⟩ := by
  rw [action_take_loot_cons e bp item (r2 :: rrest) hl hcap]
  rfl

theorem action_take_loot_cons_last (e : Entry) (bp : Backpack) (item : String)
    (hl : e.loot = [item]) (hcap : bpTotal bp < BACKPACK_CAPACITY) :
    action_take_loot e bp =
      ⟨{ e with loot := [], looted := true }, bpSet bp item (bpGet bp item + 1),
        "You found " ++ item ++ "!"⟩ := by
  rw [action_take_loot_cons e bp item [] hl hcap]
  rfl

theorem takeLootIter_spec (k : Nat) :
    ∀ (e : Entry) (bp : Backpack), e.looted = false →
      bpTotal bp + e.loot.length ≤ BACKPACK_CAPACITY → k ≤ e.loot.length →
      (takeLootIter k (e, bp)).1.loot = e.loot.drop k ∧
      (takeLootIter k (e, bp)).1.room = e.room ∧
      (takeLootIter k (e, bp)).1.pos = e.pos ∧
      (takeLootIter k (e, bp)).2 = bpAddAll bp (e.loot.take k) ∧
      ((takeLootIter k (e, bp)).1.looted = true ↔
        (k = e.loot.length ∧ 0 < e.loot.length)) := by
  induction k with
  | zero =>
    intro e bp hl hcap hk
    refine ⟨by simp [takeLootIter], by rfl, by rfl, by simp [takeLootIter, bpAddAll], ?_⟩
    simp only [takeLootIter, hl]
    constructor
    · intro hfalse
      cases hfalse
    · rintro ⟨h0, hpos⟩
      omega
  | succ k ih =>
    intro e bp hl hcap hk
    obtain ⟨item, rest, hloot⟩ : ∃ i r, e.loot = i :: r := by
      cases hle : e.loot with
      | nil =>
        rw [hle] at hk
        cases hk
      | cons i r => exact ⟨i, r, rfl⟩
    have hcap1 : bpTotal bp < BACKPACK_CAPACITY := by
      rw [hloot] at hcap
      simp only [List.length_cons] at hcap
      omega
    cases hrest : rest with
    | nil =>
      subst hrest
      have hk0 : k = 0 := by
        rw [hloot] at hk
        simp only [List.length_cons, List.length_nil] at hk
        omega
      subst hk0
      have hstep := action_take_loot_cons_last e bp item hloot hcap1
      have hunf : takeLootIter 1 (e, bp) =
          ({ e with loot := [], looted := true }, bpSet bp item (bpGet bp item + 1)) := by
        simp [takeLootIter, hstep]
      refine ⟨?_, ?_, ?_, ?_, ?_⟩
      · rw [hunf, hloot]
        rfl
      · rw [hunf]
      · rw [hunf]
      · rw [hunf, hloot]
        simp only [bpAddAll, List.take_succ_cons, List.take_nil, List.foldl_cons,
          List.foldl_nil, add_to_backpack, if_pos hcap1]
      · rw [hunf, hloot]
        exact ⟨fun _ => ⟨rfl, Nat.zero_lt_one⟩, fun _ => rfl⟩
    | cons r2 rrest =>
      subst hrest
      have hstep := action_take_loot_cons_more e bp item r2 rrest hloot hcap1
      have hunf : takeLootIter (k + 1) (e, bp) =
          takeLootIter k
            ({ e with loot := r2 :: rrest }, bpSet bp item (bpGet bp item + 1)) := by
        simp [takeLootIter, hstep]
      have hcap2 : bpTotal (bpSet bp item (bpGet bp item + 1))
          + (({ e with loot := r2 :: rrest } : Entry)).loot.length
          ≤ BACKPACK_CAPACITY := by
        rw [bpTotal_bpSet_succ]
        rw [hloot] at hcap
        simp only [List.length_cons] at hcap ⊢
        omega
      have hk2 : k ≤ (({ e with loot := r2 :: rrest } : Entry)).loot.length := by
        rw [hloot] at hk
        simp only [List.length_cons] at hk ⊢
        omega
      obtain ⟨i1, i2, i3, i4, i5⟩ := ih { e with loot := r2 :: rrest }
        (bpSet bp item (bpGet bp item + 1)) hl hcap2 hk2
      refine ⟨?_, ?_, ?_, ?_, ?_⟩
      · rw [hunf, i1, hloot]
        rfl
      · rw [hunf, i2]
      · rw [hunf, i3]
      · rw [hunf, i4, hloot]
        simp only [List.take_succ_cons, bpAddAll, List.foldl_cons, add_to_backpack,
          if_pos hcap1]
      · rw [hunf, i5, hloot]
        simp only [List.length_cons]
        constructor
        · rintro ⟨h1, h2⟩
          exact ⟨by omega, by omega⟩
        · rintro ⟨h1, h2⟩
          exact ⟨by omega, by omega⟩

/-- C7: the take-loot action is an informational no-op on an entry with no
loot; with a full inventory it fails leaving the loot unchanged; otherwise
it removes exactly the first loot item and adds it to the inventory; over
repeated takes on an entry with N loot items and room for all of them, the
looted flag becomes true exactly after the Nth take and never earlier. -/
theorem take_loot_spec :
    (∀ (e : Entry) (bp : Backpack), e.loot = [] →
        action_take_loot e bp = ⟨e, bp, "There\x27s nothing to take."⟩) ∧
    (∀ (e : Entry) (bp : Backpack), e.loot ≠ [] → BACKPACK_CAPACITY ≤ bpTotal bp →
        action_take_loot e bp = ⟨e, bp, "Your backpack is full!"⟩) ∧
    (∀ (e : Entry) (bp : Backpack) (item : String) (rest : List String),
        e.loot = item :: rest → bpTotal bp < BACKPACK_CAPACITY →
        action_take_loot e bp =
          ⟨{ e with loot := rest, looted := if rest.isEmpty then true else e.looted },
            bpSet bp item (bpGet bp item + 1), "You found " ++ item ++ "!"⟩) ∧
    (∀ (k : Nat) (e : Entry) (bp : Backpack), e.looted = false →
        bpTotal bp + e.loot.length ≤ BACKPACK_CAPACITY → k ≤ e.loot.length →
        (takeLootIter k (e, bp)).1.loot = e.loot.drop k ∧
        (takeLootIter k (e, bp)).2 = bpAddAll bp (e.loot.take k) ∧
        ((takeLootIter k (e, bp)).1.looted = true ↔
          (k = e.loot.length ∧ 0 < e.loot.length))) :=
  ⟨action_take_loot_nil, action_take_loot_full, action_take_loot_cons,
    fun k e bp hl hcap hk =>
      ⟨(takeLootIter_spec k e bp hl hcap hk).1,
        (takeLootIter_spec k e bp hl hcap hk).2.2.2.1,
        (takeLootIter_spec k e bp hl hcap hk).2.2.2.2⟩⟩

/-- Witness: two takes on a two-item entry starting from an empty backpack
empty the loot, fill the backpack accordingly, and set looted. -/
theorem take_loot_spec_witness :
    (takeLootIter 2 (entryL, [])).1.loot = entryL.loot.drop 2 ∧
    (takeLootIter 2 (entryL, [])).2 = bpAddAll [] (entryL.loot.take 2) ∧
    ((takeLootIter 2 (entryL, [])).1.looted = true ↔
      (2 = entryL.loot.length ∧ 0 < entryL.loot.length)) :=
  take_loot_spec.2.2.2 2 entryL [] (by decide) (by decide) (by decide)

/-! ## Lemmas about the camera smoother -/

theorem camera_tick_sub (offset target : ℚ) :
    camera_tick offset target - target = (offset - target) * PAN_SMOOTHING := by
  unfold camera_tick
  ring

theorem camera_iter_residual (target : ℚ) :
    ∀ (n : Nat) (offset : ℚ),
      camera_iter target n offset - target = (offset - target) * PAN_SMOOTHING ^ n := by
  intro n
  induction n with
  | zero =>
    intro o
    simp [camera_iter]
  | succ m ih =>
    intro o
    show camera_iter target m (camera_tick o target) - target = _
    rw [ih (camera_tick o target), camera_tick_sub]
    ring

/-- C9 counterexample: when the offset already equals the target the tick
leaves it in place, so the residual distance does not strictly decrease:
repeated ticks do not strictly decrease it from a zero residual. -/
theorem camera_strict_decrease_counterexample :
    ¬ (|camera_iter 1 1 1 - 1| < |camera_iter 1 0 1 - 1|) := by
  norm_num [camera_iter, camera_tick, PAN_SMOOTHING]

/-- C9 (amended): with the update offset += (target - offset) * (1 - 0.85)
on each axis and a static target (modeled over exact rationals), the
residual after n ticks is the initial residual times 0.85 to the n, the
residual never changes sign (no overshoot), the residual distance strictly
decreases whenever the offset differs from the target (from a zero residual
it stays zero), and the residual distance falls below every positive bound
from some tick on. -/
theorem camera_props_amended (offset target : ℚ) :
    (∀ n, camera_iter target n offset - target = (offset - target) * PAN_SMOOTHING ^ n) ∧
    (∀ n, 0 ≤ offset - target → 0 ≤ camera_iter target n offset - target) ∧
    (∀ n, offset - target ≤ 0 → camera_iter target n offset - target ≤ 0) ∧
    (offset ≠ target → ∀ n,
        |camera_iter target (n + 1) offset - target| < |camera_iter target n offset - target|) ∧
    (∀ ε : ℚ, 0 < ε → ∃ N, ∀ n, N ≤ n → |camera_iter target n offset - target| < ε) := by
  have hp0 : (0 : ℚ) < PAN_SMOOTHING := by norm_num [PAN_SMOOTHING]
  have hp1 : PAN_SMOOTHING < (1 : ℚ) := by norm_num [PAN_SMOOTHING]
  have hres := camera_iter_residual target
  refine ⟨fun n => hres n offset, ?_, ?_, ?_, ?_⟩
  · intro n h
    rw [hres]
    exact mul_nonneg h (pow_nonneg hp0.le n)
  · intro n h
    rw [hres]
    calc (offset - target) * PAN_SMOOTHING ^ n
        ≤ 0 * PAN_SMOOTHING ^ n := mul_le_mul_of_nonneg_right h (pow_nonneg hp0.le n)
      _ = 0 := by ring
  · intro hne n
    rw [hres, hres, abs_mul, abs_mul, abs_pow, abs_pow, abs_of_pos hp0]
    have ha : 0 < |offset - target| := abs_pos.mpr (sub_ne_zero.mpr hne)
    have hpow : PAN_SMOOTHING ^ (n + 1) < PAN_SMOOTHING ^ n := by
      rw [pow_succ]
      calc PAN_SMOOTHING ^ n * PAN_SMOOTHING
          < PAN_SMOOTHING ^ n * 1 := by
            exact mul_lt_mul_of_pos_left hp1 (pow_pos hp0 n)
        _ = PAN_SMOOTHING ^ n := by ring
    exact mul_lt_mul_of_pos_left hpow ha
  · intro ε hε
    by_cases hne : offset = target
    · refine ⟨0, fun n _ => ?_⟩
      rw [hres, hne]
      simpa using hε
    · have ha : 0 < |offset - target| := abs_pos.mpr (sub_ne_zero.mpr hne)
      obtain ⟨N, hN⟩ := exists_pow_lt_of_lt_one (div_pos hε ha) hp1
      refine ⟨N, fun n hn => ?_⟩
      rw [hres, abs_mul, abs_pow, abs_of_pos hp0]
      have hmono : PAN_SMOOTHING ^ n ≤ PAN_SMOOTHING ^ N :=
        pow_le_pow_of_le_one hp0.le hp1.le hn
      calc |offset - target| * PAN_SMOOTHING ^ n
          ≤ |offset - target| * PAN_SMOOTHING ^ N :=
            mul_le_mul_of_nonneg_left hmono ha.le
        _ < |offset - target| * (ε / |offset - target|) :=
            mul_lt_mul_of_pos_left hN ha
        _ = ε := by
            field_simp

/-- Witness: one tick from offset 1 toward target 0 strictly shrinks the
residual distance. -/
theorem camera_props_amended_witness :
    |camera_iter 0 (0 + 1) 1 - 0| < |camera_iter 0 0 1 - 0| :=
  (camera_props_amended 1 0).2.2.2.1 (by norm_num) 0

end Wanderer

